import Mathlib

/-!
Shallow embedding of the `journalist` bullet-journal persistence core.

Sources embedded here:
- `src/entities.rs` — `BulletType`, `TaskState`, `Bullet`, `Entry`
- `src/infrastructure/parser.rs` — `MarkdownParser::{parse, serialize, serialize_for_editing, empty_template}`
- `src/infrastructure/hooks.rs` — `HookRegistry::execute_write_hooks`
- `src/infrastructure/filesystem.rs` — `FileSystemRepository::{load, save}`
- `src/infrastructure/duckdb_storage.rs` — `DuckDbStorage::{load_entry, save_entry, run_migrations, discover_migrations, apply_migration, initialize}`
- `src/domain/journal.rs` — `Journal::{get_entry, get_entry_mut, save_entry}`

Conventions: `chrono::NaiveDate` is embedded as a year/month/day record; the
backends key their physical storage by the formatted date, which is injective
on dates, so the models key directly by `Date`.  Rust `HashMap<BulletType,
Vec<Bullet>>` is embedded as a total function `BulletType → List Bullet`
(an absent key and an empty vector are observationally identical through
`get_bullets`).  Fallible Rust functions that can only ever return `Ok` are
embedded as total functions; those whose error path is reachable return
`Except String`.
-/

namespace Journalist

/-! ### Data model (src/entities.rs) -/

/-- `BulletType` enum, src/entities.rs lines 12-21. -/
inductive BulletType where
  | Task
  | Event
  | Note
  | Priority
  | Inspiration
  | Insight
  | Misstep
deriving DecidableEq, Repr

/-- `TaskState` enum, src/entities.rs lines 37-43. -/
inductive TaskState where
  | Pending
  | Completed
  | Migrated
  | Scheduled
deriving DecidableEq, Repr

/-- `Bullet` struct, src/entities.rs lines 56-61. -/
structure Bullet where
  content : String
  bullet_type : BulletType
  task_state : Option TaskState
deriving DecidableEq, Repr

/-- The `task_state` that `Bullet::new` assigns for a given type
(src/entities.rs lines 68-71). -/
def defaultTaskState : BulletType → Option TaskState
  | .Task | .Priority => some .Pending
  | _ => none

/-- `Bullet::new`, src/entities.rs lines 64-73. -/
def Bullet.new (content : String) (bullet_type : BulletType) : Bullet :=
  ⟨content, bullet_type, defaultTaskState bullet_type⟩

/-- `Bullet::with_task_state`, src/entities.rs lines 75-81. -/
def Bullet.with_task_state (content : String) (bullet_type : BulletType)
    (state : TaskState) : Bullet :=
  ⟨content, bullet_type, some state⟩

/-- `Bullet::complete`, src/entities.rs lines 83-88. -/
def Bullet.complete (b : Bullet) : Bullet :=
  if b.bullet_type = .Task ∨ b.bullet_type = .Priority then
    { b with task_state := some .Completed }
  else b

/-- `Bullet::migrate`, src/entities.rs lines 90-95. -/
def Bullet.migrate (b : Bullet) : Bullet :=
  if b.bullet_type = .Task ∨ b.bullet_type = .Priority then
    { b with task_state := some .Migrated }
  else b

/-- `Bullet::schedule`, src/entities.rs lines 97-102. -/
def Bullet.schedule (b : Bullet) : Bullet :=
  if b.bullet_type = .Task ∨ b.bullet_type = .Priority then
    { b with task_state := some .Scheduled }
  else b

/-- `chrono::NaiveDate`: a plain calendar date. -/
structure Date where
  year : Int
  month : Nat
  day : Nat
deriving DecidableEq, Repr

/-- `Entry` struct, src/entities.rs lines 109-113.  The Rust
`HashMap<BulletType, Vec<Bullet>>` is embedded as a total function; an absent
key and an empty vector are observationally identical (`get_bullets` maps an
absent key to the empty slice, line 132). -/
structure Entry where
  date : Date
  bullets : BulletType → List Bullet

/-- `Entry::new`, src/entities.rs lines 116-121. -/
def Entry.new (date : Date) : Entry :=
  ⟨date, fun _ => []⟩

/-- `Entry::add_bullet`, src/entities.rs lines 123-129: pushes onto the vector
for the bullet's own type. -/
def Entry.add_bullet (e : Entry) (b : Bullet) : Entry :=
  { e with bullets := fun t => if t = b.bullet_type then e.bullets t ++ [b] else e.bullets t }

/-- `Entry::get_bullets`, src/entities.rs lines 131-133. -/
def Entry.get_bullets (e : Entry) (t : BulletType) : List Bullet :=
  e.bullets t

/-- The seven bullet types in the canonical order used throughout the source. -/
def allBulletTypes : List BulletType :=
  [.Task, .Event, .Note, .Priority, .Inspiration, .Insight, .Misstep]

/-- `Entry::total_bullets`, src/entities.rs lines 151-153. -/
def Entry.total_bullets (e : Entry) : Nat :=
  (allBulletTypes.map (fun t => (e.bullets t).length)).sum

/-- `Entry::is_empty`, src/entities.rs lines 143-145. -/
def Entry.is_empty (e : Entry) : Prop :=
  ∀ t, e.bullets t = []

/-! ### Text codec (src/infrastructure/parser.rs) -/

/-- Rust `char::is_whitespace`: the Unicode White_Space property.  The code
points carrying it are U+0009–U+000D, U+0020, U+0085, U+00A0, U+1680,
U+2000–U+200A, U+2028, U+2029, U+202F, U+205F and U+3000.  (Lean's own
`Char.isWhitespace` covers only space, tab, CR and LF, which is narrower than
what `str::trim` removes.) -/
def rustIsWhitespace (c : Char) : Bool :=
  (0x9 ≤ c.toNat ∧ c.toNat ≤ 0xD) ∨ c.toNat = 0x20 ∨ c.toNat = 0x85 ∨
    c.toNat = 0xA0 ∨ c.toNat = 0x1680 ∨ (0x2000 ≤ c.toNat ∧ c.toNat ≤ 0x200A) ∨
    c.toNat = 0x2028 ∨ c.toNat = 0x2029 ∨ c.toNat = 0x202F ∨ c.toNat = 0x205F ∨
    c.toNat = 0x3000

/-- Rust `str::trim`: strip leading and trailing Unicode whitespace. -/
def trimChars (l : List Char) : List Char :=
  ((l.dropWhile rustIsWhitespace).reverse.dropWhile rustIsWhitespace).reverse

/-- Rust `str::trim` on a `String`. -/
def rustTrim (s : String) : String :=
  ⟨trimChars s.data⟩

/-- Rust `line.starts_with('#')`. -/
def startsWithHash (s : String) : Bool :=
  match s.data with
  | '#' :: _ => true
  | _ => false

/-- Rust `str::to_lowercase`, character by character.  (Rust applies the full
Unicode lowercase mapping; on the ASCII header strings the parser compares
against, that coincides with `Char.toLower`.) -/
def rustToLowercase (s : String) : String :=
  ⟨s.data.map Char.toLower⟩

/-- The header match of `MarkdownParser::parse`, src/infrastructure/parser.rs
lines 24-33, applied to the lowercased trimmed line. -/
def headerType (l : String) : Option BulletType :=
  if l = "# tasks" then some .Task
  else if l = "# events" then some .Event
  else if l = "# notes" then some .Note
  else if l = "# priority" then some .Priority
  else if l = "# inspiration" then some .Inspiration
  else if l = "# insights" then some .Insight
  else if l = "# missteps" then some .Misstep
  else none

/-- Split a character list at every newline.  `splitNl l` always has one more
element than the number of newlines in `l`. -/
def splitNl : List Char → List (List Char)
  | [] => [[]]
  | c :: cs =>
    if c = '\n' then [] :: splitNl cs
    else
      match splitNl cs with
      | [] => [[c]]
      | l :: ls => (c :: l) :: ls

/-- Rust `str::lines`: split on newline, without a final empty line when the
string ends in a newline.  (Rust also strips one `\r` per line; the parser
trims every line anyway, so that is immaterial here.) -/
def rustLines (s : String) : List String :=
  let parts := splitNl s.data
  let parts := if parts.getLast? = some [] then parts.dropLast else parts
  parts.map (fun l => ⟨l⟩)

/-- The line loop of `MarkdownParser::parse`, src/infrastructure/parser.rs
lines 16-41: trim, skip blank lines, recognize headers case-insensitively
(an unrecognized header clears the current section), and turn any other line
into `Bullet::new(line, current_type)`. -/
def parseGo : List String → Option BulletType → Entry → Entry
  | [], _, e => e
  | line :: rest, cur, e =>
    let l := rustTrim line
    if l = "" then parseGo rest cur e
    else if startsWithHash l then parseGo rest (headerType (rustToLowercase l)) e
    else
      match cur with
      | some t => parseGo rest cur (e.add_bullet (Bullet.new l t))
      | none => parseGo rest cur e

/-- `MarkdownParser::parse`, src/infrastructure/parser.rs lines 12-44.  The
Rust function returns `Result` but has no failure path. -/
def MarkdownParser.parse (date : Date) (content : String) : Entry :=
  parseGo (rustLines content) none (Entry.new date)

/-- The section table of `serialize` / `serialize_for_editing`,
src/infrastructure/parser.rs lines 49-57 and 77-85. -/
def sections : List (BulletType × String) :=
  [(.Task, "# Tasks"), (.Event, "# Events"), (.Note, "# Notes"),
   (.Priority, "# Priority"), (.Inspiration, "# Inspiration"),
   (.Insight, "# Insights"), (.Misstep, "# Missteps")]

/-- Join lines, terminating each with a newline — exactly the accumulation
pattern of the serializers (`push_str(format!("{}\n", ..))` and `push('\n')`). -/
def unlines : List String → String
  | [] => ""
  | l :: ls => l ++ "\n" ++ unlines ls

/-- The lines emitted by `MarkdownParser::serialize_for_editing`,
src/infrastructure/parser.rs lines 74-97: every section header, the raw bullet
contents beneath it, then a blank separator line. -/
def serializeForEditingLines (e : Entry) : List String :=
  (sections.map (fun s => s.2 :: ((e.bullets s.1).map Bullet.content ++ [""]))).flatten

/-- `MarkdownParser::serialize_for_editing`, src/infrastructure/parser.rs
lines 74-97. -/
def MarkdownParser.serialize_for_editing (e : Entry) : String :=
  unlines (serializeForEditingLines e)

/-- The lines emitted by `MarkdownParser::serialize`,
src/infrastructure/parser.rs lines 46-71: as for editing, but a section with
no bullets is omitted entirely. -/
def serializeLines (e : Entry) : List String :=
  (sections.map (fun s =>
    if e.bullets s.1 = [] then []
    else s.2 :: ((e.bullets s.1).map Bullet.content ++ [""]))).flatten

/-- `MarkdownParser::serialize`, src/infrastructure/parser.rs lines 46-71. -/
def MarkdownParser.serialize (e : Entry) : String :=
  unlines (serializeLines e)

/-- `MarkdownParser::empty_template`, src/infrastructure/parser.rs
lines 100-102 (a string constant). -/
def MarkdownParser.empty_template : String :=
  "# Tasks\n\n# Events\n\n# Notes\n\n# Priority\n\n# Inspiration\n\n# Insights\n\n# Missteps\n\n"

/-! ### Write-hook pipeline (src/infrastructure/hooks.rs) -/

/-- `WriteContext`, src/infrastructure/hooks.rs lines 7-13.  (The
filesystem-snapshot caller names the directory field `journal_dir`.) -/
structure WriteContext where
  date : Date
  entry_path : String
  indexes_dir : String
  content : String

/-- A `WriteHook` trait object: a name plus the `on_entry_written` callback.
Running a hook yields the log of its observable side effects (which happen
whether or not it then fails) and an optional error message. -/
structure WriteHook where
  name : String
  run : WriteContext → Entry → List String × Option String

/-- `HookRegistry`, src/infrastructure/hooks.rs lines 30-32: the ordered list
of registered hooks. -/
def HookRegistry := List WriteHook

/-- One iteration of the loop in `execute_write_hooks`: run the hook, record
its side effects, and on failure append the `eprintln` warning instead of
propagating. -/
def hookStep (ctx : WriteContext) (e : Entry) (acc : List String × List String)
    (h : WriteHook) : List String × List String :=
  match (h.run ctx e).2 with
  | some msg =>
    (acc.1 ++ (h.run ctx e).1, acc.2 ++ ["Warning: Hook " ++ h.name ++ " failed: " ++ msg])
  | none => (acc.1 ++ (h.run ctx e).1, acc.2)

/-- `HookRegistry::execute_write_hooks`, src/infrastructure/hooks.rs
lines 48-56: run every hook in registration order, log a warning to stderr on
failure, keep going, and return `Ok(())` unconditionally.  Result: (side
effect log, stderr lines, returned `Result`). -/
def execute_write_hooks (hooks : HookRegistry) (ctx : WriteContext) (e : Entry) :
    List String × List String × Except String Unit :=
  let r := List.foldl (hookStep ctx e) ([], []) hooks
  (r.1, r.2, Except.ok ())

/-! ### File backend (src/infrastructure/filesystem.rs) -/

/-- `FileSystemRepository::entry_path`, src/infrastructure/filesystem.rs
lines 37-43: `data_dir/YYYY/MM/DD/entry.md`.  (Zero padding is dropped here;
the model below keys file contents by `Date` directly, which is equivalent
because the formatted path is injective on dates.) -/
def entry_path (dataDir : String) (d : Date) : String :=
  dataDir ++ "/" ++ toString d.year ++ "/" ++ toString d.month ++ "/" ++
    toString d.day ++ "/entry.md"

/-- The observable state of a `FileSystemRepository` plus its filesystem: the
per-date file contents, and the logs accumulated by the write hooks. -/
structure FsState where
  files : Date → Option String
  hookLog : List String
  stderrLog : List String

/-- `FileSystemRepository::load` (as `EntryRepository`),
src/infrastructure/filesystem.rs lines 47-57: absent file means absent entry;
otherwise parse the file contents. -/
def FileSystemRepository.load (files : Date → Option String) (d : Date) :
    Option Entry :=
  match files d with
  | none => none
  | some content => some (MarkdownParser.parse d content)

/-- `FileSystemRepository::save`, src/infrastructure/filesystem.rs
lines 59-84: serialize, write the file, then run the write hooks with the
context of the completed write.  Directory creation always succeeds in the
model, as does the file write. -/
def FileSystemRepository.save (dataDir journalDir : String)
    (hooks : HookRegistry) (st : FsState) (e : Entry) :
    FsState × Except String Unit :=
  let content := MarkdownParser.serialize e
  let files := fun d => if d = e.date then some content else st.files d
  let ctx : WriteContext := ⟨e.date, entry_path dataDir e.date, journalDir, content⟩
  match execute_write_hooks hooks ctx e with
  | (log, errs, Except.ok _) =>
    ({ files := files, hookLog := st.hookLog ++ log,
       stderrLog := st.stderrLog ++ errs }, Except.ok ())
  | (log, errs, Except.error msg) =>
    ({ files := files, hookLog := st.hookLog ++ log,
       stderrLog := st.stderrLog ++ errs }, Except.error msg)

/-! ### Database backend (src/infrastructure/duckdb_storage.rs) -/

/-- The `Display` impl of `BulletType`, src/entities.rs lines 23-35. -/
def bulletTypeStr : BulletType → String
  | .Task => "task"
  | .Event => "event"
  | .Note => "note"
  | .Priority => "priority"
  | .Inspiration => "inspiration"
  | .Insight => "insight"
  | .Misstep => "misstep"

/-- The `Display` impl of `TaskState`, src/entities.rs lines 45-54. -/
def taskStateStr : TaskState → String
  | .Pending => "pending"
  | .Completed => "completed"
  | .Migrated => "migrated"
  | .Scheduled => "scheduled"

/-- The type-string match of `load_entry`, src/infrastructure/duckdb_storage.rs
lines 80-89; an unrecognized string hits `continue`. -/
def parseBulletType (s : String) : Option BulletType :=
  if s = "task" then some .Task
  else if s = "event" then some .Event
  else if s = "note" then some .Note
  else if s = "priority" then some .Priority
  else if s = "inspiration" then some .Inspiration
  else if s = "insight" then some .Insight
  else if s = "misstep" then some .Misstep
  else none

/-- The task-state match of `load_entry`, src/infrastructure/duckdb_storage.rs
lines 91-97; an unrecognized string becomes `None`. -/
def parseTaskState (s : String) : Option TaskState :=
  if s = "pending" then some .Pending
  else if s = "completed" then some .Completed
  else if s = "migrated" then some .Migrated
  else if s = "scheduled" then some .Scheduled
  else none

/-- One row of the `bullets` table: `(date, content, type, task_state)`.  The
model keys by `Date` (the stored `%Y-%m-%d` string is injective on dates). -/
structure DbRow where
  date : Date
  content : String
  typeStr : String
  task_state : Option String
deriving DecidableEq, Repr

/-- A migration file on disk: file name and SQL contents. -/
structure MigFile where
  name : String
  content : String
deriving DecidableEq, Repr

/-- The observable DuckDB state: the `bullets` table in rowid order (appends
get fresh, larger ids, so list order is `ORDER BY id` order), the
`migrations` table rows `(version, name)`, and the log of migration SQL
bodies executed against the connection. -/
structure Db where
  bullets : List DbRow
  migrations : List (Nat × String)
  migrationLog : List (Nat × String × String)

/-- The rows `SELECT .. FROM bullets WHERE date = ? ORDER BY id` returns. -/
def rowsForDate (db : Db) (d : Date) : List DbRow :=
  db.bullets.filter (fun r => r.date = d)

/-- Decoding one row inside the loop of `load_entry`,
src/infrastructure/duckdb_storage.rs lines 80-105: an unrecognized type string
drops the row (`continue`); an unrecognized task-state string yields
`task_state = None` but keeps the bullet. -/
def decodeRow (r : DbRow) : Option Bullet :=
  match parseBulletType r.typeStr with
  | none => none
  | some bt => some ⟨r.content, bt, r.task_state.bind parseTaskState⟩

/-- The row loop body of `load_entry`. -/
def loadStep (e : Entry) (r : DbRow) : Entry :=
  match decodeRow r with
  | none => e
  | some b => e.add_bullet b

/-- `DuckDbStorage::load_entry`, src/infrastructure/duckdb_storage.rs
lines 60-113.  `has_bullets` is set for every row, including rows whose type
string is unrecognized, so presence is decided by the raw row count. -/
def DuckDbStorage.load_entry (db : Db) (d : Date) : Option Entry :=
  let rows := rowsForDate db d
  if rows.isEmpty then none
  else some (rows.foldl loadStep (Entry.new d))

/-- The rows `save_entry` inserts for an entry: for each key of the bullets
map, one row per bullet with the type string taken from the map key and the
task state rendered through `Display`.  The Rust `HashMap` iteration order
over the seven type keys is arbitrary; the model fixes the canonical order
(rows of distinct types are regrouped by `load_entry`, and within one type
the order is the vector order either way). -/
def encB (e : Entry) (u : BulletType) (b : Bullet) : DbRow :=
  ⟨e.date, b.content, bulletTypeStr u, b.task_state.map taskStateStr⟩

def encodeRows (e : Entry) : List DbRow :=
  (allBulletTypes.map (fun u => (e.bullets u).map (encB e u))).flatten

/-- `DuckDbStorage::save_entry`, src/infrastructure/duckdb_storage.rs
lines 197-223: delete every row of the entry's date, then insert the entry's
bullets (appended rows receive fresh ids after all surviving ones). -/
def DuckDbStorage.save_entry (db : Db) (e : Entry) : Db :=
  { db with bullets := db.bullets.filter (fun r => ¬ r.date = e.date) ++ encodeRows e }

/-! ### Migration runner (src/infrastructure/duckdb_storage.rs lines 406-497) -/

/-- Numeric value of a digit string. -/
def digitsVal (l : List Char) : Nat :=
  l.foldl (fun acc c => acc * 10 + (c.toNat - '0'.toNat)) 0

/-- Rust `version_str.parse::<i32>()` restricted to the unsigned digit strings
migration names use: succeeds exactly on non-empty all-digit strings. -/
def parseVersion (s : String) : Option Nat :=
  if s ≠ "" ∧ s.data.all Char.isDigit then some (digitsVal s.data) else none

/-- Rust `filename.split('_').next()`: the prefix up to the first underscore. -/
def firstSegment (s : String) : String :=
  ⟨s.data.takeWhile (fun c => ¬ c = '_')⟩

/-- `path.extension() == Some("sql")` for a plain file name: the name ends in
".sql". -/
def hasSqlExt (s : String) : Bool :=
  s.data.reverse.take 4 = ['l', 'q', 's', '.']

/-- Rust `filename.strip_suffix(".sql")` (on a name known to end in it). -/
def stripSqlSuffix (s : String) : String :=
  ⟨s.data.take (s.data.length - 4)⟩

/-- Ascending comparison on the version component of a discovered migration. -/
def migLE (a b : Nat × String × String) : Prop :=
  a.1 ≤ b.1

instance : DecidableRel migLE := fun a b => Nat.decLe a.1 b.1

instance : IsTotal (Nat × String × String) migLE :=
  ⟨fun a b => Nat.le_total a.1 b.1⟩

instance : IsTrans (Nat × String × String) migLE :=
  ⟨fun _ _ _ => Nat.le_trans⟩

/-- `DuckDbStorage::discover_migrations`, src/infrastructure/duckdb_storage.rs
lines 432-463: keep `.sql` files whose name starts with a numeric version
(malformed names are skipped), read their contents, and sort ascending by
version.  Rust `sort_by_key` is a stable sort; `List.insertionSort` is also
stable, so it computes the same list.  The directory listing order is
unspecified, so the directory is a parameter. -/
def discover_migrations (dir : List MigFile) : List (Nat × String × String) :=
  List.insertionSort migLE (dir.filterMap (fun f =>
    if hasSqlExt f.name then
      match parseVersion (firstSegment f.name) with
      | some v => some (v, stripSqlSuffix f.name, f.content)
      | none => none
    else none))

/-- `DuckDbStorage::apply_migration`, src/infrastructure/duckdb_storage.rs
lines 483-497: execute the migration SQL, then insert the `(version, name)`
record — which fails on a duplicate version (`version INTEGER PRIMARY KEY`). -/
def apply_migration (db : Db) (v : Nat) (name sql : String) :
    Db × Except String Unit :=
  let db1 := { db with migrationLog := db.migrationLog ++ [(v, name, sql)] }
  if (db1.migrations.map Prod.fst).contains v then
    (db1, Except.error ("Failed to record migration " ++ name ++ " as applied"))
  else
    ({ db1 with migrations := db1.migrations ++ [(v, name)] }, Except.ok ())

/-- The loop of `run_migrations`, src/infrastructure/duckdb_storage.rs
lines 422-427: `applied` is the set snapshot taken once before the loop; a
failure aborts the remaining migrations and propagates. -/
def runMigrationsLoop (applied : List Nat) :
    List (Nat × String × String) → Db → Db × Except String Unit
  | [], db => (db, Except.ok ())
  | (v, name, sql) :: rest, db =>
    if applied.contains v then runMigrationsLoop applied rest db
    else
      match apply_migration db v name sql with
      | (db1, Except.ok _) => runMigrationsLoop applied rest db1
      | (db1, Except.error msg) => (db1, Except.error msg)

/-- `DuckDbStorage::run_migrations`, src/infrastructure/duckdb_storage.rs
lines 418-430. -/
def run_migrations (dir : List MigFile) (db : Db) : Db × Except String Unit :=
  runMigrationsLoop (db.migrations.map Prod.fst) (discover_migrations dir) db

/-- `DuckDbStorage::initialize`, src/infrastructure/duckdb_storage.rs
lines 41-45: `setup_migration_system` (a `CREATE TABLE IF NOT EXISTS`, a
no-op on the model state, which always has the table) then `run_migrations`. -/
def initializeStorage (dir : List MigFile) (db : Db) :
    Db × Except String Unit :=
  run_migrations dir db

/-! ### Journal cache (src/domain/journal.rs) -/

/-- The `EntryRepository` trait object behind a `Journal`: a pure load view
plus the log of entries passed to `save` (so that persistence, or its
absence, is observable). -/
structure Repo where
  stored : Date → Option Entry
  saveLog : List Entry

/-- `EntryRepository::load` of the modelled repository (always `Ok`). -/
def Repo.load (r : Repo) (d : Date) : Option Entry :=
  r.stored d

/-- `Journal`, src/domain/journal.rs lines 7-10: the date-keyed entry cache in
front of a repository. -/
structure Journal where
  entries : Date → Option Entry
  repository : Repo

/-- `Journal::get_entry`, src/domain/journal.rs lines 20-28: on a cache miss
consult the repository, caching only a present result. -/
def Journal.get_entry (j : Journal) (d : Date) : Option Entry × Journal :=
  match j.entries d with
  | some e => (some e, j)
  | none =>
    match j.repository.load d with
    | some e =>
      (some e, { j with entries := fun x => if x = d then some e else j.entries x })
    | none => (none, j)

/-- `Journal::get_entry_mut`, src/domain/journal.rs lines 30-40: on a cache
miss load from the repository or synthesize `Entry::new(date)`, cache it, and
return the cached entry. -/
def Journal.get_entry_mut (j : Journal) (d : Date) : Entry × Journal :=
  match j.entries d with
  | some e => (e, j)
  | none =>
    let e := (j.repository.load d).getD (Entry.new d)
    (e, { j with entries := fun x => if x = d then some e else j.entries x })

/-- `Journal::save_entry`, src/domain/journal.rs lines 42-47: write the cached
copy through to the repository; a no-op when the date is not cached. -/
def Journal.save_entry (j : Journal) (d : Date) : Journal :=
  match j.entries d with
  | some e =>
    { j with repository :=
        { stored := fun x => if x = d then some e else j.repository.stored x,
          saveLog := j.repository.saveLog ++ [e] } }
  | none => j

/-! ## Helper lemmas -/

theorem add_bullet_bullets (e : Entry) (b : Bullet) (t : BulletType) :
    (e.add_bullet b).bullets t =
      e.bullets t ++ if t = b.bullet_type then [b] else [] := by
  simp only [Entry.add_bullet]
  split <;> simp

theorem add_bullet_date (e : Entry) (b : Bullet) : (e.add_bullet b).date = e.date := rfl

theorem map_id_of_mem {α : Type} (f : α → α) :
    ∀ (l : List α), (∀ x ∈ l, f x = x) → l.map f = l
  | [], _ => rfl
  | x :: l, h => by
    simp only [List.map_cons, h x (by simp)]
    rw [map_id_of_mem f l (fun y hy => h y (by simp [hy]))]

/-! ## C9 — task-state invariant under Bullet transformations -/

/-- The three state-transforming operations of `Bullet`
(src/entities.rs lines 83-102). -/
inductive BulletOp where
  | complete
  | migrate
  | schedule
deriving DecidableEq, Repr

def applyBulletOp (b : Bullet) : BulletOp → Bullet
  | .complete => b.complete
  | .migrate => b.migrate
  | .schedule => b.schedule

/-- The intended invariant: a task state is present exactly on Task/Priority
bullets. -/
def TaskInv (b : Bullet) : Prop :=
  b.task_state.isSome = true ↔ (b.bullet_type = .Task ∨ b.bullet_type = .Priority)

theorem taskInv_new (c : String) (t : BulletType) : TaskInv (Bullet.new c t) := by
  cases t <;> simp [TaskInv, Bullet.new, defaultTaskState]

theorem applyBulletOp_bullet_type (b : Bullet) (op : BulletOp) :
    (applyBulletOp b op).bullet_type = b.bullet_type := by
  cases op <;>
    simp only [applyBulletOp, Bullet.complete, Bullet.migrate, Bullet.schedule] <;>
    split <;> rfl

theorem taskInv_applyBulletOp {b : Bullet} (h : TaskInv b) (op : BulletOp) :
    TaskInv (applyBulletOp b op) := by
  cases op <;>
    simp only [applyBulletOp, Bullet.complete, Bullet.migrate, Bullet.schedule] <;>
    · split
      · simp_all [TaskInv]
      · exact h

theorem taskInv_foldl (c : String) (t : BulletType) :
    ∀ (ops : List BulletOp) (b : Bullet), TaskInv b → b.bullet_type = t →
      TaskInv (ops.foldl applyBulletOp b) ∧ (ops.foldl applyBulletOp b).bullet_type = t
  | [], b, hb, ht => ⟨hb, ht⟩
  | op :: ops, b, hb, ht => by
    simp only [List.foldl_cons]
    exact taskInv_foldl c t ops _ (taskInv_applyBulletOp hb op)
      ((applyBulletOp_bullet_type b op).trans ht)

/-- C9: for every bullet created with `Bullet::new` and transformed by an
arbitrary sequence of `complete`, `migrate` and `schedule`, `task_state` is
`Some` if and only if the bullet type is Task or Priority; and immediately
after `Bullet::new` on a Task or Priority bullet the state is `Pending`. -/
theorem claim_C9_task_state_invariant (c : String) (t : BulletType)
    (ops : List BulletOp) :
    ((ops.foldl applyBulletOp (Bullet.new c t)).task_state.isSome = true
        ↔ (t = .Task ∨ t = .Priority)) ∧
      ((t = .Task ∨ t = .Priority) → (Bullet.new c t).task_state = some .Pending) := by
  obtain ⟨hinv, htype⟩ := taskInv_foldl c t ops (Bullet.new c t) (taskInv_new c t) rfl
  constructor
  · rw [TaskInv, htype] at hinv
    exact hinv
  · rintro (h | h) <;> subst h <;> rfl

theorem claim_C9_witness :
    (((([BulletOp.complete, BulletOp.migrate]).foldl applyBulletOp
          (Bullet.new "x" .Task)).task_state.isSome = true
        ↔ (BulletType.Task = .Task ∨ BulletType.Task = .Priority)) ∧
      ((BulletType.Task = .Task ∨ BulletType.Task = .Priority) →
        (Bullet.new "x" .Task).task_state = some .Pending)) :=
  claim_C9_task_state_invariant "x" .Task [BulletOp.complete, BulletOp.migrate]

/-! ## C3 — hook failure isolation -/

theorem foldl_hookStep_fst (ctx : WriteContext) (e : Entry) :
    ∀ (hooks : List WriteHook) (acc : List String × List String),
      (List.foldl (hookStep ctx e) acc hooks).1 =
        acc.1 ++ (hooks.map (fun h => (h.run ctx e).1)).flatten
  | [], acc => by simp
  | h :: hooks, acc => by
    simp only [List.foldl_cons, List.map_cons, List.flatten_cons]
    rw [foldl_hookStep_fst ctx e hooks]
    have hstep : (hookStep ctx e acc h).1 = acc.1 ++ (h.run ctx e).1 := by
      simp only [hookStep]
      rcases (h.run ctx e).2 with _ | msg <;> rfl
    rw [hstep, List.append_assoc]

/-- C3: for every hook registry and every write that physically succeeded, a
failing hook does not abort the write, does not prevent subsequent hooks (in
registration order) from running, and does not propagate an error: the
repository save returns success, the file is written, and the side effects of
every registered hook are applied in registration order. -/
theorem claim_C3_hook_isolation (dataDir journalDir : String)
    (hooks : HookRegistry) (st : FsState) (e : Entry) :
    (FileSystemRepository.save dataDir journalDir hooks st e).2 = Except.ok () ∧
      (FileSystemRepository.save dataDir journalDir hooks st e).1.files e.date
        = some (MarkdownParser.serialize e) ∧
      (FileSystemRepository.save dataDir journalDir hooks st e).1.hookLog
        = st.hookLog ++
            (hooks.map (fun h =>
              (h.run ⟨e.date, entry_path dataDir e.date, journalDir,
                MarkdownParser.serialize e⟩ e).1)).flatten := by
  refine ⟨rfl, by simp [FileSystemRepository.save, execute_write_hooks], ?_⟩
  simp only [FileSystemRepository.save, execute_write_hooks]
  exact congrArg (st.hookLog ++ ·) (foldl_hookStep_fst _ e hooks ([], []))

theorem claim_C3_witness :
    (FileSystemRepository.save "data" "journal" [] ⟨fun _ => none, [], []⟩
        (Entry.new ⟨2024, 3, 15⟩)).2 = Except.ok () ∧
      (FileSystemRepository.save "data" "journal" [] ⟨fun _ => none, [], []⟩
          (Entry.new ⟨2024, 3, 15⟩)).1.files (Entry.new ⟨2024, 3, 15⟩).date
        = some (MarkdownParser.serialize (Entry.new ⟨2024, 3, 15⟩)) ∧
      (FileSystemRepository.save "data" "journal" [] ⟨fun _ => none, [], []⟩
          (Entry.new ⟨2024, 3, 15⟩)).1.hookLog
        = FsState.hookLog ⟨fun _ => none, [], []⟩ ++
            (([] : HookRegistry).map (fun h =>
              (h.run ⟨(Entry.new ⟨2024, 3, 15⟩).date,
                entry_path "data" (Entry.new ⟨2024, 3, 15⟩).date, "journal",
                MarkdownParser.serialize (Entry.new ⟨2024, 3, 15⟩)⟩
                (Entry.new ⟨2024, 3, 15⟩)).1)).flatten :=
  claim_C3_hook_isolation "data" "journal" [] ⟨fun _ => none, [], []⟩
    (Entry.new ⟨2024, 3, 15⟩)

/-! ## C8 — template / minimal-serialization asymmetry -/

/-- C8: for every date `d`, `serialize` of a brand-new empty Entry is the
empty string, while `empty_template()` differs from
`serialize(parse(d, empty_template()))` — both hold simultaneously. -/
theorem claim_C8_template_asymmetry (d : Date) :
    MarkdownParser.serialize (Entry.new d) = "" ∧
      MarkdownParser.empty_template ≠
        MarkdownParser.serialize (MarkdownParser.parse d MarkdownParser.empty_template) := by
  refine ⟨rfl, ?_⟩
  have h1 : MarkdownParser.parse d MarkdownParser.empty_template = Entry.new d := rfl
  have h2 : MarkdownParser.serialize (Entry.new d) = "" := rfl
  rw [h1, h2]
  decide

theorem claim_C8_witness :
    MarkdownParser.serialize (Entry.new ⟨2024, 3, 15⟩) = "" ∧
      MarkdownParser.empty_template ≠
        MarkdownParser.serialize
          (MarkdownParser.parse ⟨2024, 3, 15⟩ MarkdownParser.empty_template) :=
  claim_C8_template_asymmetry ⟨2024, 3, 15⟩

/-! ## C6 — cache lazy materialization -/

/-- C6: on a date with no entry in the backend, `get_entry_mut` returns a
non-absent zero-bullet Entry for that date, a subsequent `get_entry` (before
any save) returns that same Entry from the cache, and nothing is persisted:
the repository is untouched. -/
theorem claim_C6_lazy_materialization (j : Journal) (d : Date)
    (hrepo : j.repository.load d = none) (hcache : j.entries d = none) :
    (Journal.get_entry_mut j d).1 = Entry.new d ∧
      (Journal.get_entry_mut j d).1.total_bullets = 0 ∧
      (Journal.get_entry ((Journal.get_entry_mut j d).2) d).1 = some (Entry.new d) ∧
      (Journal.get_entry ((Journal.get_entry_mut j d).2) d).2 = (Journal.get_entry_mut j d).2 ∧
      ((Journal.get_entry_mut j d).2).repository = j.repository := by
  have hmut : Journal.get_entry_mut j d =
      (Entry.new d,
        { j with entries := fun x => if x = d then some (Entry.new d) else j.entries x }) := by
    simp [Journal.get_entry_mut, hcache, hrepo]
  refine ⟨by rw [hmut], by rw [hmut]; rfl, ?_, ?_, by rw [hmut]⟩ <;>
    · rw [hmut]
      simp [Journal.get_entry]

theorem claim_C6_witness :
    (Journal.get_entry_mut ⟨fun _ => none, ⟨fun _ => none, []⟩⟩ ⟨2024, 3, 15⟩).1
        = Entry.new ⟨2024, 3, 15⟩ ∧
      (Journal.get_entry_mut ⟨fun _ => none, ⟨fun _ => none, []⟩⟩ ⟨2024, 3, 15⟩).1.total_bullets = 0 ∧
      (Journal.get_entry
          ((Journal.get_entry_mut ⟨fun _ => none, ⟨fun _ => none, []⟩⟩ ⟨2024, 3, 15⟩).2)
          ⟨2024, 3, 15⟩).1 = some (Entry.new ⟨2024, 3, 15⟩) ∧
      (Journal.get_entry
          ((Journal.get_entry_mut ⟨fun _ => none, ⟨fun _ => none, []⟩⟩ ⟨2024, 3, 15⟩).2)
          ⟨2024, 3, 15⟩).2
        = (Journal.get_entry_mut ⟨fun _ => none, ⟨fun _ => none, []⟩⟩ ⟨2024, 3, 15⟩).2 ∧
      ((Journal.get_entry_mut ⟨fun _ => none, ⟨fun _ => none, []⟩⟩ ⟨2024, 3, 15⟩).2).repository
        = Journal.repository ⟨fun _ => none, ⟨fun _ => none, []⟩⟩ :=
  claim_C6_lazy_materialization ⟨fun _ => none, ⟨fun _ => none, []⟩⟩ ⟨2024, 3, 15⟩ rfl rfl

/-! ## C2 — empty entry and absence on the file backend (corrected) -/

/-- C2 counterexample: saving an empty Entry through the file backend writes
an empty file, so a subsequent `load` finds the path present and returns a
present (zero-bullet) Entry — not absence as the claim states. -/
theorem claim_C2_counterexample :
    (FileSystemRepository.load
        ((FileSystemRepository.save "data" "journal" [] ⟨fun _ => none, [], []⟩
            (Entry.new ⟨2024, 3, 15⟩)).1.files)
        ⟨2024, 3, 15⟩).isSome = true := by
  rfl

theorem serialize_of_empty {E : Entry} (h : E.is_empty) :
    MarkdownParser.serialize E = "" := by
  simp [MarkdownParser.serialize, serializeLines, sections, h .Task, h .Event,
    h .Note, h .Priority, h .Inspiration, h .Insight, h .Misstep, unlines]

/-- C2 amended: after `save(E)` of an empty Entry `E` for date `d`, the file
backend's `load(d)` returns a **present** Entry with zero bullets (the save
writes an empty file, and `load` treats any existing file as presence); it
does not return absence. -/
theorem claim_C2_empty_entry_amended (dataDir journalDir : String)
    (hooks : HookRegistry) (st : FsState) (E : Entry) (d : Date)
    (hdate : E.date = d) (hempty : E.is_empty) :
    FileSystemRepository.load
        ((FileSystemRepository.save dataDir journalDir hooks st E).1.files) d
      = some (Entry.new d) := by
  have hser := serialize_of_empty hempty
  simp [FileSystemRepository.save, execute_write_hooks, FileSystemRepository.load,
    hdate, hser]
  rfl

theorem claim_C2_witness :
    Entry.is_empty (Entry.new ⟨2024, 3, 15⟩) ∧
      FileSystemRepository.load
          ((FileSystemRepository.save "d" "j" [] ⟨fun _ => none, [], []⟩
              (Entry.new ⟨2024, 3, 15⟩)).1.files) ⟨2024, 3, 15⟩
        = some (Entry.new ⟨2024, 3, 15⟩) :=
  ⟨fun _ => rfl,
    claim_C2_empty_entry_amended "d" "j" [] ⟨fun _ => none, [], []⟩
      (Entry.new ⟨2024, 3, 15⟩) ⟨2024, 3, 15⟩ rfl (fun _ => rfl)⟩

/-! ## Database reconstruction lemmas (shared by C4, C7, C10) -/

/-- The per-type observation the round-trip claims compare: content and task
state, in order. -/
def bulletData (b : Bullet) : String × Option TaskState :=
  (b.content, b.task_state)

/-- A loaded bullet: same content and task state, retyped to the type string
its row carried. -/
def reB (u : BulletType) (b : Bullet) : Bullet :=
  ⟨b.content, u, b.task_state⟩

theorem foldl_loadStep_bullets :
    ∀ (rows : List DbRow) (e : Entry) (t : BulletType),
      (rows.foldl loadStep e).bullets t =
        e.bullets t ++
          (rows.filterMap decodeRow).filter (fun b => decide (b.bullet_type = t))
  | [], e, t => by simp
  | r :: rows, e, t => by
    simp only [List.foldl_cons, List.filterMap_cons, loadStep]
    rcases h : decodeRow r with _ | b
    · simp only [h]
      exact foldl_loadStep_bullets rows e t
    · simp only [h]
      rw [foldl_loadStep_bullets rows (e.add_bullet b) t, add_bullet_bullets]
      by_cases hb : b.bullet_type = t
      · simp [hb, List.filter_cons]
      · have : ¬ t = b.bullet_type := fun hc => hb hc.symm
        simp [List.filter_cons, hb, this]

theorem foldl_loadStep_date :
    ∀ (rows : List DbRow) (e : Entry), (rows.foldl loadStep e).date = e.date
  | [], _ => rfl
  | r :: rows, e => by
    simp only [List.foldl_cons, loadStep]
    rcases decodeRow r with _ | b
    · exact foldl_loadStep_date rows e
    · exact foldl_loadStep_date rows (e.add_bullet b)

theorem decode_encB (e : Entry) (u : BulletType) (b : Bullet) :
    decodeRow (encB e u b) = some (reB u b) := by
  obtain ⟨c, bt, ts⟩ := b
  cases u <;>
    · rcases ts with _ | st
      · rfl
      · cases st <;> rfl

theorem encB_date (e : Entry) (u : BulletType) (b : Bullet) :
    (encB e u b).date = e.date := rfl

theorem mem_encodeRows_date {e : Entry} {r : DbRow} (h : r ∈ encodeRows e) :
    r.date = e.date := by
  simp only [encodeRows, List.mem_flatten, List.mem_map] at h
  obtain ⟨l, ⟨u, _, rfl⟩, hr⟩ := h
  obtain ⟨b, _, rfl⟩ := List.mem_map.mp hr
  rfl

/-- After `save_entry e`, the rows of `e.date` are exactly the inserted rows
of `e`, in insertion order. -/
theorem rowsForDate_save (db : Db) (e : Entry) :
    rowsForDate (DuckDbStorage.save_entry db e) e.date = encodeRows e := by
  simp only [rowsForDate, DuckDbStorage.save_entry, List.filter_append]
  rw [List.filter_filter]
  have h1 : (db.bullets.filter fun r => decide (r.date = e.date) && decide (¬r.date = e.date))
      = [] := by
    rw [List.filter_eq_nil_iff]
    intro r _
    simp only [Bool.and_eq_true, decide_eq_true_eq]
    rintro ⟨h, hn⟩
    exact hn h
  have h2 : (encodeRows e).filter (fun r => r.date = e.date) = encodeRows e := by
    rw [List.filter_eq_self]
    intro r hr
    simp [mem_encodeRows_date hr]
  rw [h1, h2, List.nil_append]

theorem filterMap_decode_encodeRows (e : Entry) :
    (encodeRows e).filterMap decodeRow =
      (allBulletTypes.map (fun u => (e.bullets u).map (reB u))).flatten := by
  simp only [encodeRows]
  induction allBulletTypes with
  | nil => rfl
  | cons u us ih =>
    simp only [List.map_cons, List.flatten_cons, List.filterMap_append, ih]
    congr 1
    rw [List.filterMap_map]
    have : (decodeRow ∘ encB e u) = some ∘ reB u := by
      funext b
      exact decode_encB e u b
    rw [this, List.filterMap_eq_map]

theorem filter_type_decoded (e : Entry) (t : BulletType) :
    ((allBulletTypes.map (fun u => (e.bullets u).map (reB u))).flatten).filter
        (fun b => decide (b.bullet_type = t)) =
      (e.bullets t).map (reB t) := by
  have hfil : ∀ (u : BulletType),
      ((e.bullets u).map (reB u)).filter (fun b => decide (b.bullet_type = t)) =
        if u = t then (e.bullets u).map (reB u) else [] := by
    intro u
    rw [List.filter_map]
    by_cases h : u = t
    · rw [if_pos h]
      congr 1
      rw [List.filter_eq_self]
      intro b _
      simp [Function.comp, reB, h]
    · rw [if_neg h]
      have : (e.bullets u).filter ((fun b => decide (b.bullet_type = t)) ∘ reB u) = [] := by
        rw [List.filter_eq_nil_iff]
        intro b _
        simp [Function.comp, reB, h]
      rw [this, List.map_nil]
  cases t <;>
    simp [allBulletTypes, List.filter_append, hfil]

/-- Per-type reconstruction: the entry `load_entry` rebuilds from the rows of
`save_entry e` carries, at every type, exactly the bullets of `e` at that
type (retyped through the row's type string). -/
theorem load_save_bullets (e : Entry) (t : BulletType) :
    ((encodeRows e).foldl loadStep (Entry.new e.date)).bullets t =
      (e.bullets t).map (reB t) := by
  rw [foldl_loadStep_bullets, filterMap_decode_encodeRows, filter_type_decoded]
  rfl

theorem encodeRows_eq_nil_iff (e : Entry) :
    encodeRows e = [] ↔ ∀ t, e.bullets t = [] := by
  constructor
  · intro h t
    have ht : (e.bullets t).map (encB e t) ∈
        (allBulletTypes.map (fun u => (e.bullets u).map (encB e u))) := by
      apply List.mem_map.mpr
      exact ⟨t, by cases t <;> simp [allBulletTypes], rfl⟩
    have := (List.flatten_eq_nil_iff).mp h _ ht
    exact List.map_eq_nil_iff.mp this
  · intro h
    simp [encodeRows, allBulletTypes, h .Task, h .Event, h .Note, h .Priority,
      h .Inspiration, h .Insight, h .Misstep]

theorem bulletData_reB (u : BulletType) (b : Bullet) :
    bulletData (reB u b) = bulletData b := rfl

/-! ## C7 — database round-trip for non-empty entries -/

/-- C7: for every non-empty Entry `e`, the database backend satisfies
`load_entry(save_entry(e)) == e` bullet-for-bullet: for each of the seven
types, the loaded entry has the same bullets with the same contents and task
states, in the same within-type order. -/
theorem claim_C7_db_roundtrip (db : Db) (e : Entry)
    (hne : ∃ t, e.bullets t ≠ []) :
    ∃ e', DuckDbStorage.load_entry (DuckDbStorage.save_entry db e) e.date = some e' ∧
      ∀ t, (e'.bullets t).map bulletData = (e.bullets t).map bulletData := by
  have hrows := rowsForDate_save db e
  have hnotnil : ¬ encodeRows e = [] := by
    intro h
    obtain ⟨t, ht⟩ := hne
    exact ht ((encodeRows_eq_nil_iff e).mp h t)
  refine ⟨(encodeRows e).foldl loadStep (Entry.new e.date), ?_, ?_⟩
  · simp only [DuckDbStorage.load_entry, hrows]
    rw [if_neg (by simpa [List.isEmpty_iff] using hnotnil)]
  · intro t
    rw [load_save_bullets, List.map_map]
    rfl

theorem claim_C7_witness :
    (∃ t, (((Entry.new ⟨2024, 3, 15⟩).add_bullet
        (Bullet.new "Complete unit tests" .Task)).bullets t ≠ [])) ∧
      ∃ e', DuckDbStorage.load_entry
          (DuckDbStorage.save_entry ⟨[], [], []⟩
            ((Entry.new ⟨2024, 3, 15⟩).add_bullet (Bullet.new "Complete unit tests" .Task)))
          ((Entry.new ⟨2024, 3, 15⟩).add_bullet
            (Bullet.new "Complete unit tests" .Task)).date = some e' ∧
        ∀ t, (e'.bullets t).map bulletData =
          (((Entry.new ⟨2024, 3, 15⟩).add_bullet
            (Bullet.new "Complete unit tests" .Task)).bullets t).map bulletData :=
  ⟨⟨.Task, by simp [Entry.add_bullet, Entry.new, Bullet.new]⟩,
    claim_C7_db_roundtrip ⟨[], [], []⟩ _ ⟨.Task, by simp [Entry.add_bullet, Entry.new, Bullet.new]⟩⟩

/-! ## C4 — upsert supersedes -/

/-- The per-type bullet observation of a `load_entry` result (absence observes
as no bullets, matching the row-per-bullet reading of "exactly B's bullets"). -/
def loadedBulletData (db : Db) (d : Date) (t : BulletType) :
    List (String × Option TaskState) :=
  match DuckDbStorage.load_entry db d with
  | some e => (e.bullets t).map bulletData
  | none => []

/-- C4: saving A for date d, then B for date d, then loading d returns exactly
B's bullets (content and task state, per type, in order) — none of A's
bullets are merged in. -/
theorem claim_C4_upsert_supersedes (db : Db) (d : Date) (A B : Entry)
    (hA : A.date = d) (hB : B.date = d) (t : BulletType) :
    loadedBulletData (DuckDbStorage.save_entry (DuckDbStorage.save_entry db A) B) d t
      = (B.bullets t).map bulletData := by
  subst hB
  have hrows := rowsForDate_save (DuckDbStorage.save_entry db A) B
  by_cases hnil : encodeRows B = []
  · have hbt : B.bullets t = [] := (encodeRows_eq_nil_iff B).mp hnil t
    simp [loadedBulletData, DuckDbStorage.load_entry, hrows, hnil, hbt]
  · have hload : DuckDbStorage.load_entry
        (DuckDbStorage.save_entry (DuckDbStorage.save_entry db A) B) B.date
          = some ((encodeRows B).foldl loadStep (Entry.new B.date)) := by
      simp only [DuckDbStorage.load_entry, hrows]
      rw [if_neg (by simpa [List.isEmpty_iff] using hnil)]
    simp only [loadedBulletData, hload]
    rw [load_save_bullets, List.map_map]
    rfl

theorem claim_C4_witness :
    loadedBulletData
        (DuckDbStorage.save_entry
          (DuckDbStorage.save_entry ⟨[], [], []⟩
            ((Entry.new ⟨2024, 3, 15⟩).add_bullet (Bullet.new "old task" .Task)))
          ((Entry.new ⟨2024, 3, 15⟩).add_bullet (Bullet.new "new note" .Note)))
        ⟨2024, 3, 15⟩ .Task
      = ((((Entry.new ⟨2024, 3, 15⟩).add_bullet
            (Bullet.new "new note" .Note)).bullets .Task).map bulletData) :=
  claim_C4_upsert_supersedes ⟨[], [], []⟩ ⟨2024, 3, 15⟩
    ((Entry.new ⟨2024, 3, 15⟩).add_bullet (Bullet.new "old task" .Task))
    ((Entry.new ⟨2024, 3, 15⟩).add_bullet (Bullet.new "new note" .Note))
    rfl rfl .Task

/-! ## C10 — load_entry presence and silent row dropping (corrected) -/

/-- Every bullet has exactly one of the seven types, so filtering the decoded
bullets by each type in turn partitions them. -/
theorem sum_length_filter_types (l : List Bullet) :
    (allBulletTypes.map
      (fun t => (l.filter (fun b => decide (b.bullet_type = t))).length)).sum
      = l.length := by
  induction l with
  | nil => simp
  | cons b l ih =>
    simp only [allBulletTypes, List.map_cons, List.map_nil, List.sum_cons,
      List.sum_nil, List.filter_cons] at ih ⊢
    cases hb : b.bullet_type <;> simp [hb] <;> omega

/-- C10 counterexample: a row whose task-state string is unrecognized is NOT
dropped from the result — the bullet is kept with `task_state = None`.  (The
claim states such rows are silently dropped.) -/
theorem claim_C10_counterexample :
    (DuckDbStorage.load_entry ⟨[⟨⟨2024, 1, 1⟩, "x", "task", some "bogus"⟩], [], []⟩
        ⟨2024, 1, 1⟩).map (fun e => e.bullets .Task)
      = some [⟨"x", .Task, none⟩] ∧
    ¬ (DuckDbStorage.load_entry ⟨[⟨⟨2024, 1, 1⟩, "x", "task", some "bogus"⟩], [], []⟩
        ⟨2024, 1, 1⟩).map (fun e => e.bullets .Task)
      = some [] := by
  constructor <;> decide

/-- C10 amended: `load_entry` reports a date present exactly when at least one
raw row exists for it, even if every row has an unrecognized type string; rows
with an unrecognized *type* are silently dropped, while a row with an
unrecognized *task-state* string is kept as a bullet whose task state is
`None`; hence the loaded entry can have fewer bullets than stored rows,
including zero. -/
theorem claim_C10_presence_and_dropping (db : Db) (d : Date) :
    ((DuckDbStorage.load_entry db d).isSome = true ↔ rowsForDate db d ≠ []) ∧
      (∀ e, DuckDbStorage.load_entry db d = some e →
        e.total_bullets = ((rowsForDate db d).filterMap decodeRow).length ∧
          e.total_bullets ≤ (rowsForDate db d).length) ∧
      (∀ r, r.date = d → parseBulletType r.typeStr = none → decodeRow r = none) ∧
      (∀ r bt, parseBulletType r.typeStr = some bt → r.task_state.isSome = true →
        (r.task_state.bind parseTaskState) = none →
        decodeRow r = some ⟨r.content, bt, none⟩) := by
  refine ⟨?_, ?_, ?_, ?_⟩
  · by_cases h : (rowsForDate db d).isEmpty <;>
      simp [DuckDbStorage.load_entry, h, List.isEmpty_iff] <;>
      simpa [List.isEmpty_iff] using h
  · intro e he
    simp only [DuckDbStorage.load_entry] at he
    split at he
    · exact absurd he (by simp)
    · obtain rfl : (rowsForDate db d).foldl loadStep (Entry.new d) = e :=
        Option.some.injEq .. ▸ he
      constructor
      · simp only [Entry.total_bullets, foldl_loadStep_bullets, Entry.new,
          List.nil_append]
        exact sum_length_filter_types _
      · calc ((rowsForDate db d).foldl loadStep (Entry.new d)).total_bullets
            = ((rowsForDate db d).filterMap decodeRow).length := by
              simp only [Entry.total_bullets, foldl_loadStep_bullets, Entry.new,
                List.nil_append]
              exact sum_length_filter_types _
          _ ≤ (rowsForDate db d).length := List.length_filterMap_le _ _
  · intro r _ hp
    simp [decodeRow, hp]
  · intro r bt hp hs hb
    simp [decodeRow, hp, hb]

theorem claim_C10_witness :
    ((DuckDbStorage.load_entry ⟨[⟨⟨2024, 1, 1⟩, "x", "weird", none⟩], [], []⟩
          ⟨2024, 1, 1⟩).isSome = true
        ↔ rowsForDate ⟨[⟨⟨2024, 1, 1⟩, "x", "weird", none⟩], [], []⟩ ⟨2024, 1, 1⟩ ≠ []) ∧
      (Entry.total_bullets
          ((rowsForDate ⟨[⟨⟨2024, 1, 1⟩, "x", "weird", none⟩], [], []⟩
              ⟨2024, 1, 1⟩).foldl loadStep (Entry.new ⟨2024, 1, 1⟩))
        = ((rowsForDate ⟨[⟨⟨2024, 1, 1⟩, "x", "weird", none⟩], [], []⟩
              ⟨2024, 1, 1⟩).filterMap decodeRow).length ∧
        Entry.total_bullets
            ((rowsForDate ⟨[⟨⟨2024, 1, 1⟩, "x", "weird", none⟩], [], []⟩
                ⟨2024, 1, 1⟩).foldl loadStep (Entry.new ⟨2024, 1, 1⟩))
          ≤ (rowsForDate ⟨[⟨⟨2024, 1, 1⟩, "x", "weird", none⟩], [], []⟩
              ⟨2024, 1, 1⟩).length) :=
  ⟨(claim_C10_presence_and_dropping ⟨[⟨⟨2024, 1, 1⟩, "x", "weird", none⟩], [], []⟩
      ⟨2024, 1, 1⟩).1,
    (claim_C10_presence_and_dropping ⟨[⟨⟨2024, 1, 1⟩, "x", "weird", none⟩], [], []⟩
      ⟨2024, 1, 1⟩).2.1 _ (by rfl)⟩

/-! ## C5 — migration idempotence -/

theorem runMigrationsLoop_skip :
    ∀ (migs : List (Nat × String × String)) (applied : List Nat) (db : Db),
      (∀ m ∈ migs, m.1 ∈ applied) →
      runMigrationsLoop applied migs db = (db, Except.ok ())
  | [], _, _, _ => rfl
  | (v, name, sql) :: migs, applied, db, h => by
    have hv : applied.contains v = true := by
      simp only [List.contains, List.elem_eq_mem, decide_eq_true_eq]
      exact h (v, name, sql) (by simp)
    simp only [runMigrationsLoop, hv, if_true]
    exact runMigrationsLoop_skip migs applied db (fun m hm => h m (by simp [hm]))

theorem runMigrationsLoop_fresh :
    ∀ (migs : List (Nat × String × String)) (db : Db),
      (migs.map (fun m => m.1)).Nodup →
      (∀ m ∈ migs, m.1 ∉ db.migrations.map Prod.fst) →
      runMigrationsLoop [] migs db =
        ({ db with
            migrations := db.migrations ++ migs.map (fun m => (m.1, m.2.1)),
            migrationLog := db.migrationLog ++ migs }, Except.ok ())
  | [], db, _, _ => by simp [runMigrationsLoop]
  | (v, name, sql) :: migs, db, hnodup, hnew => by
    have hnotin : List.elem v (db.migrations.map Prod.fst) = false := by
      simp only [List.elem_eq_mem, decide_eq_false_iff_not]
      exact hnew (v, name, sql) (by simp)
    simp only [List.map_cons, List.nodup_cons] at hnodup
    obtain ⟨hvnot, hnodup2⟩ := hnodup
    have hnew2 : ∀ m ∈ migs, m.1 ∉
        (({ db with
            migrations := db.migrations ++ [(v, name)],
            migrationLog := db.migrationLog ++ [(v, name, sql)] } : Db)).migrations.map
          Prod.fst := by
      intro m hm
      simp only [List.map_append, List.map_cons, List.map_nil, List.mem_append,
        List.mem_singleton]
      rintro (hold | hv)
      · exact hnew m (List.mem_cons_of_mem _ hm) hold
      · exact hvnot (hv ▸ List.mem_map_of_mem (fun m => m.1) hm)
    have happ : apply_migration db v name sql
        = ({ db with
              migrations := db.migrations ++ [(v, name)],
              migrationLog := db.migrationLog ++ [(v, name, sql)] }, Except.ok ()) := by
      simp only [apply_migration]
      rw [if_neg (show ¬ (List.elem v (db.migrations.map Prod.fst) = true) by
        rw [hnotin]; exact Bool.false_ne_true)]
    have h0 : runMigrationsLoop [] ((v, name, sql) :: migs) db
        = match apply_migration db v name sql with
          | (db1, Except.ok _) => runMigrationsLoop [] migs db1
          | (db1, Except.error msg) => (db1, Except.error msg) := rfl
    rw [h0, happ]
    show runMigrationsLoop [] migs _ = _
    rw [runMigrationsLoop_fresh migs _ hnodup2 hnew2]
    simp [List.append_assoc]

/-- C5: running `initialize()` twice against the same (fresh) backend applies
each discovered migration exactly once, in ascending version order (malformed
names having been skipped by discovery), and the recorded applied-versions
set after the second run equals the set after the first run — the second run
changes nothing at all.  The repository's migrations directory is not part of
the sources, so per the spec's naming scheme (`0001_initial`, `0002_add_index`,
…; version is a primary key) the discovered versions are assumed distinct. -/
theorem claim_C5_migration_idempotence (dir : List MigFile) (db0 : Db)
    (hfresh : db0.migrations = [])
    (hnodup : ((discover_migrations dir).map (fun m => m.1)).Nodup) :
    (initializeStorage dir db0).2 = Except.ok () ∧
      (initializeStorage dir db0).1.migrationLog
        = db0.migrationLog ++ discover_migrations dir ∧
      (initializeStorage dir db0).1.migrations
        = (discover_migrations dir).map (fun m => (m.1, m.2.1)) ∧
      initializeStorage dir (initializeStorage dir db0).1
        = ((initializeStorage dir db0).1, Except.ok ()) ∧
      ((discover_migrations dir).map (fun m => m.1)).Pairwise (· ≤ ·) := by
  have hmap0 : db0.migrations.map Prod.fst = [] := by rw [hfresh]; rfl
  have hrun1 : initializeStorage dir db0 =
      ({ db0 with
          migrations := db0.migrations ++ (discover_migrations dir).map (fun m => (m.1, m.2.1)),
          migrationLog := db0.migrationLog ++ discover_migrations dir }, Except.ok ()) := by
    rw [show initializeStorage dir db0
        = runMigrationsLoop (db0.migrations.map Prod.fst) (discover_migrations dir) db0
      from rfl, hmap0]
    exact runMigrationsLoop_fresh _ db0 hnodup (by simp [hfresh])
  have hsorted : ((discover_migrations dir).map (fun m => m.1)).Pairwise (· ≤ ·) := by
    exact List.pairwise_map.mpr (List.sorted_insertionSort migLE _)
  refine ⟨by rw [hrun1], by rw [hrun1], by rw [hrun1, hfresh]; rfl, ?_, hsorted⟩
  rw [hrun1]
  show runMigrationsLoop
      ((db0.migrations ++ (discover_migrations dir).map (fun m => (m.1, m.2.1))).map
        Prod.fst) (discover_migrations dir) _ = _
  apply runMigrationsLoop_skip
  intro m hm
  rw [hfresh]
  simp only [List.nil_append, List.map_map]
  exact List.mem_map_of_mem _ hm

theorem claim_C5_witness :
    (initializeStorage
        [⟨"0002_add_index.sql", "CREATE INDEX"⟩, ⟨"0001_initial.sql", "CREATE TABLE"⟩,
         ⟨"notes.txt", "junk"⟩, ⟨"bad_name.sql", "skipped"⟩] ⟨[], [], []⟩).2
      = Except.ok () ∧
    (initializeStorage
        [⟨"0002_add_index.sql", "CREATE INDEX"⟩, ⟨"0001_initial.sql", "CREATE TABLE"⟩,
         ⟨"notes.txt", "junk"⟩, ⟨"bad_name.sql", "skipped"⟩] ⟨[], [], []⟩).1.migrationLog
      = [] ++ discover_migrations
          [⟨"0002_add_index.sql", "CREATE INDEX"⟩, ⟨"0001_initial.sql", "CREATE TABLE"⟩,
           ⟨"notes.txt", "junk"⟩, ⟨"bad_name.sql", "skipped"⟩] ∧
    (initializeStorage
        [⟨"0002_add_index.sql", "CREATE INDEX"⟩, ⟨"0001_initial.sql", "CREATE TABLE"⟩,
         ⟨"notes.txt", "junk"⟩, ⟨"bad_name.sql", "skipped"⟩] ⟨[], [], []⟩).1.migrations
      = (discover_migrations
          [⟨"0002_add_index.sql", "CREATE INDEX"⟩, ⟨"0001_initial.sql", "CREATE TABLE"⟩,
           ⟨"notes.txt", "junk"⟩, ⟨"bad_name.sql", "skipped"⟩]).map (fun m => (m.1, m.2.1)) ∧
    initializeStorage
        [⟨"0002_add_index.sql", "CREATE INDEX"⟩, ⟨"0001_initial.sql", "CREATE TABLE"⟩,
         ⟨"notes.txt", "junk"⟩, ⟨"bad_name.sql", "skipped"⟩]
        (initializeStorage
          [⟨"0002_add_index.sql", "CREATE INDEX"⟩, ⟨"0001_initial.sql", "CREATE TABLE"⟩,
           ⟨"notes.txt", "junk"⟩, ⟨"bad_name.sql", "skipped"⟩] ⟨[], [], []⟩).1
      = ((initializeStorage
          [⟨"0002_add_index.sql", "CREATE INDEX"⟩, ⟨"0001_initial.sql", "CREATE TABLE"⟩,
           ⟨"notes.txt", "junk"⟩, ⟨"bad_name.sql", "skipped"⟩] ⟨[], [], []⟩).1, Except.ok ()) ∧
    ((discover_migrations
        [⟨"0002_add_index.sql", "CREATE INDEX"⟩, ⟨"0001_initial.sql", "CREATE TABLE"⟩,
         ⟨"notes.txt", "junk"⟩, ⟨"bad_name.sql", "skipped"⟩]).map (fun m => m.1)).Pairwise
      (· ≤ ·) :=
  claim_C5_migration_idempotence
    [⟨"0002_add_index.sql", "CREATE INDEX"⟩, ⟨"0001_initial.sql", "CREATE TABLE"⟩,
     ⟨"notes.txt", "junk"⟩, ⟨"bad_name.sql", "skipped"⟩] ⟨[], [], []⟩ rfl (by decide)

/-! ## C1 — editing-form round trip (corrected) -/

/-- C1 counterexample: a Task bullet whose task state is `Completed` does not
survive `parse(serialize_for_editing(·))` — `parse` rebuilds every bullet with
`Bullet::new`, which resets the state to the default `Pending`, so the Task
lists differ even though contents agree. -/
theorem claim_C1_counterexample :
    (MarkdownParser.parse ⟨2024, 3, 15⟩ (MarkdownParser.serialize_for_editing
        ((Entry.new ⟨2024, 3, 15⟩).add_bullet
          (Bullet.with_task_state "Do it" .Task .Completed)))).bullets .Task
      ≠ ((Entry.new ⟨2024, 3, 15⟩).add_bullet
          (Bullet.with_task_state "Do it" .Task .Completed)).bullets .Task := by
  decide

theorem splitNl_append (l : List Char) (rest : List Char) (h : '\n' ∉ l) :
    splitNl (l ++ '\n' :: rest) = l :: splitNl rest := by
  induction l with
  | nil => simp [splitNl]
  | cons c l ih =>
    have hc : ¬ c = '\n' := fun hc => h (hc ▸ List.mem_cons_self c l)
    have ih' := ih (fun hm => h (List.mem_cons_of_mem c hm))
    simp only [List.cons_append, splitNl, if_neg hc, List.append_eq, ih']

theorem unlines_cons_data (l : String) (ls : List String) :
    (unlines (l :: ls)).data = l.data ++ '\n' :: (unlines ls).data := by
  simp [unlines, String.data_append]

theorem splitNl_unlines :
    ∀ (ls : List String), (∀ l ∈ ls, '\n' ∉ l.data) →
      splitNl (unlines ls).data = ls.map String.data ++ [[]]
  | [], _ => rfl
  | l :: ls, h => by
    rw [unlines_cons_data, splitNl_append l.data _ (h l (by simp)),
      splitNl_unlines ls (fun x hx => h x (by simp [hx]))]
    rfl

theorem rustLines_unlines (ls : List String) (h : ∀ l ∈ ls, '\n' ∉ l.data) :
    rustLines (unlines ls) = ls := by
  simp only [rustLines, splitNl_unlines ls h]
  rw [List.getLast?_concat, if_pos rfl, List.dropLast_concat, List.map_map]
  exact map_id_of_mem _ ls (fun x _ => rfl)

/-- Hygiene of a bullet content line: what the parser's line discipline needs
in order to hand the line back unchanged as a bullet. -/
abbrev ContentOk (c : String) : Prop :=
  rustTrim c = c ∧ c ≠ "" ∧ startsWithHash c = false

/-- Hygiene of a section header for type `t`: trimmed, `#`-initial, and
recognized (case-insensitively) as the header of `t`. -/
abbrev HeaderOk (h : String) (t : BulletType) : Prop :=
  rustTrim h = h ∧ h ≠ "" ∧ startsWithHash h = true ∧
    headerType (rustToLowercase h) = some t

theorem parseGo_blank (rest : List String) (cur : Option BulletType) (e : Entry) :
    parseGo ("" :: rest) cur e = parseGo rest cur e := rfl

theorem parseGo_content {c : String} (hC : ContentOk c) (rest : List String)
    (t : BulletType) (e : Entry) :
    parseGo (c :: rest) (some t) e =
      parseGo rest (some t) (e.add_bullet (Bullet.new c t)) := by
  obtain ⟨h1, h2, h3⟩ := hC
  simp only [parseGo]
  rw [h1, if_neg h2, h3]
  rfl

theorem parseGo_header {h : String} {t : BulletType} (hH : HeaderOk h t)
    (rest : List String) (cur : Option BulletType) (e : Entry) :
    parseGo (h :: rest) cur e = parseGo rest (some t) e := by
  obtain ⟨h1, h2, h3, h4⟩ := hH
  simp only [parseGo]
  rw [h1, if_neg h2, h3]
  show parseGo rest (headerType (rustToLowercase h)) e = _
  rw [h4]

/-- Re-adding a list of content lines as bullets of one type, in order — the
effect of the parser's bullet lines inside one section. -/
def addAll (e : Entry) (t : BulletType) (cs : List String) : Entry :=
  cs.foldl (fun e c => e.add_bullet (Bullet.new c t)) e

theorem parseGo_contents :
    ∀ (cs : List String), (∀ c ∈ cs, ContentOk c) →
      ∀ (rest : List String) (t : BulletType) (e : Entry),
        parseGo (cs ++ rest) (some t) e = parseGo rest (some t) (addAll e t cs)
  | [], _, _, _, _ => rfl
  | c :: cs, h, rest, t, e => by
    rw [List.cons_append, parseGo_content (h c (by simp)) _ t e,
      parseGo_contents cs (fun x hx => h x (by simp [hx]))]
    rfl

theorem parseGo_sections (E : Entry) :
    ∀ (secs : List (BulletType × String)),
      (∀ s ∈ secs, HeaderOk s.2 s.1) →
      (∀ s ∈ secs, ∀ b ∈ E.bullets s.1, ContentOk b.content) →
      ∀ (cur : Option BulletType) (e : Entry),
        parseGo ((secs.map
            (fun s => s.2 :: ((E.bullets s.1).map Bullet.content ++ [""]))).flatten) cur e
          = secs.foldl
              (fun acc s => addAll acc s.1 ((E.bullets s.1).map Bullet.content)) e
  | [], _, _, _, _ => rfl
  | s :: secs, hH, hC, cur, e => by
    simp only [List.map_cons, List.flatten_cons, List.cons_append, List.append_assoc,
      List.singleton_append, List.nil_append]
    rw [parseGo_header (hH s (by simp)) _ cur e,
      parseGo_contents _ (fun c hc => by
        obtain ⟨b, hb, rfl⟩ := List.mem_map.mp hc
        exact hC s (by simp) b hb) _ s.1 e,
      parseGo_blank]
    rw [parseGo_sections E secs (fun x hx => hH x (by simp [hx]))
      (fun x hx => hC x (by simp [hx]))]
    rfl

theorem addAll_date (t : BulletType) :
    ∀ (cs : List String) (e : Entry), (addAll e t cs).date = e.date
  | [], _ => rfl
  | c :: cs, e => by
    simp only [addAll, List.foldl_cons]
    exact addAll_date t cs _

theorem addAll_bullets (t : BulletType) :
    ∀ (cs : List String) (e : Entry) (u : BulletType),
      (addAll e t cs).bullets u =
        e.bullets u ++ if u = t then cs.map (fun c => Bullet.new c t) else []
  | [], e, u => by simp [addAll]
  | c :: cs, e, u => by
    simp only [addAll, List.foldl_cons]
    rw [show List.foldl (fun e c => e.add_bullet (Bullet.new c t))
        (e.add_bullet (Bullet.new c t)) cs
      = addAll (e.add_bullet (Bullet.new c t)) t cs from rfl]
    rw [addAll_bullets t cs _ u, add_bullet_bullets]
    by_cases h : u = t
    · simp [h, Bullet.new, List.append_assoc]
    · simp [h, Bullet.new]

theorem entry_ext (a b : Entry) (h1 : a.date = b.date)
    (h2 : ∀ t, a.bullets t = b.bullets t) : a = b := by
  cases a
  cases b
  simp only [Entry.mk.injEq]
  exact ⟨h1, funext h2⟩

/-- The well-formedness the counterexample forces on a bullet for the editing
round trip: stored under its own type, carrying the constructor-default task
state, with content that is non-empty, trimmed, newline-free and not
`#`-initial. -/
abbrev GoodBullet (t : BulletType) (b : Bullet) : Prop :=
  b.bullet_type = t ∧ b.task_state = defaultTaskState t ∧
    ContentOk b.content ∧ '\n' ∉ b.content.data

theorem goodBullet_new {t : BulletType} {b : Bullet} (h : GoodBullet t b) :
    Bullet.new b.content t = b := by
  obtain ⟨c, bt, ts⟩ := b
  obtain ⟨h1, h2, -, -⟩ := h
  simp only at h1 h2
  subst h1
  rw [Bullet.new, h2]

theorem no_newline_serializeForEditingLines {E : Entry}
    (hgood : ∀ t, ∀ b ∈ E.bullets t, GoodBullet t b) :
    ∀ l ∈ serializeForEditingLines E, '\n' ∉ l.data := by
  have hhead : ∀ s ∈ sections, '\n' ∉ (s.2).data := by decide
  intro l hl
  simp only [serializeForEditingLines, List.mem_flatten, List.mem_map] at hl
  obtain ⟨blk, ⟨s, hs, rfl⟩, hlblk⟩ := hl
  rcases List.mem_cons.mp hlblk with rfl | hl2
  · exact hhead s hs
  · rcases List.mem_append.mp hl2 with hl3 | hl4
    · obtain ⟨b, hb, rfl⟩ := List.mem_map.mp hl3
      exact (hgood s.1 b hb).2.2.2
    · rw [List.mem_singleton.mp hl4]
      simp

/-- C1 amended: the editing round trip `parse(d, serialize_for_editing(E)) = E`
holds for every Entry `E` with `E.date = d` whose bullets are all stored under
their own type, carry the constructor-default task state for that type
(`Pending` for Task/Priority, absent otherwise), and have contents that are
non-empty, trimmed, newline-free and do not start with `#`.  It does not hold
for all Entries: `parse` rebuilds every bullet via `Bullet::new`, so any
non-default task state (e.g. `Completed`) is reset to the default. -/
theorem claim_C1_roundtrip_editing_amended (E : Entry) (d : Date)
    (hd : E.date = d)
    (hgood : ∀ t, ∀ b ∈ E.bullets t, GoodBullet t b) :
    MarkdownParser.parse d (MarkdownParser.serialize_for_editing E) = E := by
  have hH : ∀ s ∈ sections, HeaderOk s.2 s.1 := by decide
  have hC : ∀ s ∈ sections, ∀ b ∈ E.bullets s.1, ContentOk b.content :=
    fun s _ b hb => (hgood s.1 b hb).2.2.1
  rw [MarkdownParser.parse, MarkdownParser.serialize_for_editing,
    rustLines_unlines _ (no_newline_serializeForEditingLines hgood),
    serializeForEditingLines, parseGo_sections E sections hH hC none (Entry.new d)]
  apply entry_ext
  · simp only [sections, List.foldl_cons, List.foldl_nil, addAll_date]
    rw [hd]
    rfl
  · intro t
    simp only [sections, List.foldl_cons, List.foldl_nil]
    cases t <;>
      · simp [addAll_bullets, Entry.new, List.map_map]
        exact map_id_of_mem _ _ (fun b hb => goodBullet_new (hgood _ b hb))

theorem claim_C1_witness :
    (Entry.date ((Entry.new ⟨2024, 3, 15⟩).add_bullet (Bullet.new "Team standup" .Event))
        = ⟨2024, 3, 15⟩) ∧
      MarkdownParser.parse ⟨2024, 3, 15⟩
          (MarkdownParser.serialize_for_editing
            ((Entry.new ⟨2024, 3, 15⟩).add_bullet (Bullet.new "Team standup" .Event)))
        = (Entry.new ⟨2024, 3, 15⟩).add_bullet (Bullet.new "Team standup" .Event) :=
  ⟨rfl,
    claim_C1_roundtrip_editing_amended
      ((Entry.new ⟨2024, 3, 15⟩).add_bullet (Bullet.new "Team standup" .Event))
      ⟨2024, 3, 15⟩ rfl
      (by
        intro t b hb
        cases t <;> simp only [Entry.add_bullet, Entry.new, Bullet.new,
          reduceIte, List.nil_append, List.mem_singleton, List.not_mem_nil] at hb
        all_goals cases hb
        exact ⟨rfl, rfl, ⟨rfl, by decide, rfl⟩, by decide⟩)⟩

end Journalist
